import Mathlib

/-!
Verification development for the ARPI policy-analysis pipeline
(`main.py`, `ai_analysis.py`, `alerting.py`).

We shallowly embed the pure core of the pipeline: keyword counting,
regulatory scoring, domain identification, enforcement-level
classification, per-policy analysis, risk-alert generation and
filtering, AI-relevance scoring/filtering, and the
sort-plus-drop-duplicates deduplication, and prove the specified
properties about these definitions.

Wall-clock reads (`datetime.now()`) are modelled by an explicit `now`
parameter threaded into the functions that embed them.  Machine floats
are modelled as rationals (all arithmetic performed by the scoring code
is exact on the ranges involved).  Python `str.lower` is modelled as
ASCII lowering (all cased characters appearing in the keyword tables
are ASCII).
-/

/-- ASCII lower-casing of a string, modelling Python `str.lower()`
on the character ranges used by the pipeline's keyword tables. -/
def pyLower (s : String) : String := String.mk (s.data.map Char.toLower)

/-- One step of non-overlapping substring counting: `fuel` bounds the
number of scanning steps (it is instantiated with the haystack length,
which always suffices).  This models Python `str.count`, which counts
non-overlapping occurrences scanning left to right. -/
def countOccAux (needle : List Char) : Nat → List Char → Nat
  | 0, _ => 0
  | _, [] => 0
  | fuel + 1, c :: t =>
    if needle.isPrefixOf (c :: t) && !needle.isEmpty then
      1 + countOccAux needle fuel (List.drop (needle.length - 1) t)
    else
      countOccAux needle fuel t

/-- Number of non-overlapping occurrences of `needle` in `hay`,
modelling Python `hay.count(needle)`. -/
def countOcc (needle hay : List Char) : Nat :=
  countOccAux needle hay.length hay

/-- Substring containment, modelling Python `needle in hay`. -/
def containsSub (needle : List Char) : List Char → Bool
  | [] => needle.isEmpty
  | c :: t => needle.isPrefixOf (c :: t) || containsSub needle t

/-- The strictness keyword table of `PolicyAnalyzer.__init__`
(`ai_analysis.py` lines 22-37): keyword → strictness weight. -/
def strict_keywords : List (String × ℚ) :=
  [("严禁", 10), ("禁止", 9), ("不得", 8), ("违法", 10), ("处罚", 9),
   ("停业", 10), ("吊销", 10), ("责令", 8), ("查处", 9), ("整改", 7),
   ("监管", 7), ("合规", 7), ("审查", 8), ("审批", 7), ("备案", 6),
   ("许可", 7), ("资质", 6), ("认证", 6), ("检查", 7), ("督查", 8),
   ("规范", 5), ("管理", 5), ("制度", 5), ("标准", 5), ("要求", 4),
   ("应当", 5), ("必须", 6), ("义务", 6), ("责任", 5), ("风险", 6),
   ("指导", 3), ("建议", 3), ("推荐", 2), ("提倡", 2), ("倡导", 2)]

/-- The innovation-encouragement keyword table of
`PolicyAnalyzer.__init__` (`ai_analysis.py` lines 39-47). -/
def innovation_keywords : List (String × ℚ) :=
  [("鼓励", 1), ("支持", 1), ("促进", 1), ("推动", 2), ("加快", 2),
   ("创新", 1), ("突破", 1), ("发展", 2), ("提升", 2), ("优化", 2),
   ("应用", 2), ("试点", 3), ("示范", 3), ("推广", 2), ("普及", 2),
   ("数字化", 2), ("智能化", 1), ("升级", 2), ("转型", 2), ("赋能", 1)]

/-- The topic-domain keyword table of `PolicyAnalyzer.__init__`
(`ai_analysis.py` lines 50-57). -/
def domain_keywords : List (String × List String) :=
  [("隐私保护", ["隐私", "个人信息", "数据保护", "信息保护", "敏感信息"]),
   ("算法透明度", ["算法", "算法透明", "可解释", "黑盒", "算法歧视", "算法公平"]),
   ("未成年人保护", ["未成年", "儿童", "青少年", "学生", "未成年人保护"]),
   ("生成式AI", ["生成式", "大模型", "ChatGPT", "AIGC", "生成式人工智能", "深度合成"]),
   ("数据安全", ["数据安全", "网络安全", "信息安全", "数据泄露", "网络攻击"]),
   ("内容安全", ["内容安全", "有害信息", "虚假信息", "不良内容", "违法内容"])]

/-- The enforcement-level keyword table of `PolicyAnalyzer.__init__`
(`ai_analysis.py` lines 60-65), in declaration order. -/
def enforcement_levels : List (String × List String) :=
  [("法律法规", ["法律", "法规", "条例", "刑法", "民法", "行政法"]),
   ("行政规章", ["规定", "办法", "细则", "规章", "管理办法", "实施细则"]),
   ("行业标准", ["标准", "规范", "指南", "准则", "技术标准", "国家标准"]),
   ("指导性文件", ["意见", "通知", "指导", "建议", "倡议", "指南"])]

/-- One loop iteration over `strict_keywords` in
`calculate_regulatory_score`: accumulates
`(weighted_score, total_weight)` with weight `min(count * 2, 10)`. -/
def strictStep (t : List Char) (acc : ℚ × ℚ) (p : String × ℚ) : ℚ × ℚ :=
  if 0 < countOcc p.1.toList t then
    (acc.1 + p.2 * min ((countOcc p.1.toList t : ℚ) * 2) 10,
     acc.2 + min ((countOcc p.1.toList t : ℚ) * 2) 10)
  else acc

/-- One loop iteration over `innovation_keywords` in
`calculate_regulatory_score`: weight `min(count * 1.5, 8)`. -/
def innovStep (t : List Char) (acc : ℚ × ℚ) (p : String × ℚ) : ℚ × ℚ :=
  if 0 < countOcc p.1.toList t then
    (acc.1 + p.2 * min ((countOcc p.1.toList t : ℚ) * 1.5) 8,
     acc.2 + min ((countOcc p.1.toList t : ℚ) * 1.5) 8)
  else acc

/-- The `(weighted_score, total_weight)` accumulator after both keyword
loops of `calculate_regulatory_score`. -/
def regAcc (t : List Char) : ℚ × ℚ :=
  innovation_keywords.foldl (innovStep t) (strict_keywords.foldl (strictStep t) (0, 0))

/-- `PolicyAnalyzer.calculate_regulatory_score`
(`ai_analysis.py` lines 67-102). -/
def calculate_regulatory_score (text : String) : ℚ :=
  if text = "" then 5
  else if (regAcc (pyLower text).toList).2 = 0 then 5
  else max 1 (min 10 ((regAcc (pyLower text).toList).1 / (regAcc (pyLower text).toList).2))

/-- `PolicyAnalyzer.identify_domains` (`ai_analysis.py` lines 104-117):
topic categories whose keyword occurrence sum is at least 1, in
declaration order. -/
def identify_domains (text : String) : List String :=
  if text = "" then []
  else
    let t := (pyLower text).toList
    (domain_keywords.filter (fun p =>
      0 < (p.2.map (fun kw => countOcc (pyLower kw).toList t)).sum)).map (·.1)

/-- Occurrence sum of a keyword list over combined text, as computed in
`PolicyAnalyzer.determine_enforcement_level`. -/
def levelSum (combined : List Char) (kws : List String) : Nat :=
  (kws.map (fun kw => countOcc kw.toList combined)).sum

/-- The lower-cased combined `f"{title} {text}"` string used by
`determine_enforcement_level`. -/
def enfCombined (text title : String) : List Char :=
  (pyLower (title ++ " " ++ text)).toList

/-- `PolicyAnalyzer.determine_enforcement_level`
(`ai_analysis.py` lines 119-133).  Python `max(..., key=...)` returns
the first maximum in insertion order, embedded here as a left fold that
replaces the current best only on a strictly greater score. -/
def determine_enforcement_level (text title : String) : String :=
  let combined := enfCombined text title
  let scored := enforcement_levels.filterMap (fun p =>
    let s := levelSum combined p.2
    if 0 < s then some (p.1, s) else none)
  match scored with
  | [] => "指导性文件"
  | x :: xs => (xs.foldl (fun best y => if best.2 < y.2 then y else best) x).1

/-- ASCII digit test, modelling `\d` of the deadline regex. -/
def isDigitCh (c : Char) : Bool := '0' ≤ c && c ≤ '9'

/-- Does `\d{1,2}月` match at the head of the list (greedy with
backtracking, as in Python `re`)? -/
def monthAt : List Char → Bool
  | m1 :: m2 :: m3 :: _ => isDigitCh m1 && (m2 == '月' || (isDigitCh m2 && m3 == '月'))
  | [m1, m2] => isDigitCh m1 && m2 == '月'
  | _ => false

/-- Does `\d{4}年\d{1,2}月` match at the head of the list? -/
def deadlineAt : List Char → Bool
  | d1 :: d2 :: d3 :: d4 :: y :: rest =>
    isDigitCh d1 && isDigitCh d2 && isDigitCh d3 && isDigitCh d4 && y == '年' && monthAt rest
  | _ => false

/-- `re.search(r'\d{4}年\d{1,2}月', ...)` as a Boolean: the pattern
matches starting at some position. -/
def deadlineScan : List Char → Bool
  | [] => false
  | c :: t => deadlineAt (c :: t) || deadlineScan t

/-- Penalty-indicator words of `analyze_policy` (`ai_analysis.py` line 151). -/
def penalty_words : List String := ["处罚", "罚款", "责任", "违法"]

/-- Urgency words of `analyze_policy` (`ai_analysis.py` line 154). -/
def urgency_words : List String := ["紧急", "立即", "尽快", "马上"]

/-- A policy record as consumed by the analysis/alerting stage: one row
of the annotated table (string-typed fields, as in the CSV). -/
structure Policy where
  title : String
  url : String
  full_text : String
  issuing_department : String
  unified_department : String
  publication_date : String
deriving DecidableEq, Repr

/-- The analysis dictionary produced by `PolicyAnalyzer.analyze_policy`. -/
structure Analysis where
  regulatory_score : ℚ
  identified_domains : List String
  enforcement_level : String
  content_length : Nat
  analysis_timestamp : String
  has_penalties : Bool
  has_deadlines : Bool
  urgency_indicators : Nat
deriving DecidableEq, Repr

/-- `PolicyAnalyzer.analyze_policy` (`ai_analysis.py` lines 135-156).
The wall-clock read `datetime.now().isoformat()` is modelled by the
explicit `now` argument. -/
def analyze_policy (now : String) (p : Policy) : Analysis :=
  let combined := p.title ++ " " ++ p.full_text
  { regulatory_score := calculate_regulatory_score combined
    identified_domains := identify_domains combined
    enforcement_level := determine_enforcement_level p.full_text p.title
    content_length := p.full_text.length
    analysis_timestamp := now
    has_penalties := penalty_words.any (fun w => containsSub w.toList (pyLower combined).toList)
    has_deadlines := deadlineScan combined.toList
    urgency_indicators := (urgency_words.map (fun w => countOcc w.toList (pyLower combined).toList)).sum }

/-- An alert dictionary produced by
`PolicyTrendAnalyzer.generate_risk_alerts`. -/
structure Alert where
  title : String
  url : String
  regulatory_score : ℚ
  department : String
  publication_date : String
  risk_factors : List String
  affected_domains : List String
  alert_timestamp : String
deriving DecidableEq, Repr

/-- The alert dictionary built for one qualifying policy in
`generate_risk_alerts` (`ai_analysis.py` lines 260-281), risk factors
in the fixed source order. -/
def mkAlert (now : String) (p : Policy) : Alert :=
  let a := analyze_policy now p
  { title := p.title
    url := p.url
    regulatory_score := a.regulatory_score
    department := p.issuing_department
    publication_date := p.publication_date
    risk_factors :=
      (if a.has_penalties then ["包含处罚条款"] else []) ++
      (if a.has_deadlines then ["设定时间期限"] else []) ++
      (if 0 < a.urgency_indicators then ["存在紧急性指标"] else []) ++
      (if a.enforcement_level = "法律法规" ∨ a.enforcement_level = "行政规章"
       then ["强制执行级别高"] else [])
    affected_domains := a.identified_domains
    alert_timestamp := now }

/-- Descending-score comparison used by `alerts.sort(key=..., reverse=True)`.
Python's sort is stable also under `reverse=True`, which the stable
`List.mergeSort` with this relation reproduces exactly. -/
def alertLe (a b : Alert) : Bool := decide (b.regulatory_score ≤ a.regulatory_score)

/-- The alert list of `generate_risk_alerts` before sorting: one alert
per qualifying policy, in input order. -/
def keptAlerts (now : String) (policies : List Policy) (threshold : ℚ) : List Alert :=
  (policies.filter (fun p => decide (threshold ≤ (analyze_policy now p).regulatory_score))).map
    (mkAlert now)

/-- `PolicyTrendAnalyzer.generate_risk_alerts`
(`ai_analysis.py` lines 251-285): keep policies scoring at least the
threshold, build alerts in input order, stable-sort descending by
regulatory score. -/
def generate_risk_alerts (now : String) (policies : List Policy) (threshold : ℚ) : List Alert :=
  List.mergeSort (keptAlerts now policies threshold) alertLe

/-- The allow-list filter applied per alert in
`PolicyAlerter.check_high_risk_policies` (`alerting.py` lines 101-113):
an empty list disables the corresponding check; the department check
reads the alert's `department` field. -/
def alertKeep (depts doms : List String) (a : Alert) : Bool :=
  (depts.isEmpty || depts.contains a.department) &&
  (doms.isEmpty || a.affected_domains.any (fun d => doms.contains d))

/-- `PolicyAlerter.check_high_risk_policies` (`alerting.py` lines 92-115):
generate alerts, then filter by the department/domain allow-lists,
preserving order. -/
def check_high_risk_policies (now : String) (policies : List Policy) (threshold : ℚ)
    (depts doms : List String) : List Alert :=
  (generate_risk_alerts now policies threshold).filter (alertKeep depts doms)

/-- `AI_KEYWORDS` of `main.py` (lines 16-23). -/
def AI_KEYWORDS : List String :=
  ["人工智能", "AI", "生成式", "大模型", "AIGC",
   "算法", "深度合成", "机器学习", "深度学习", "自然语言处理",
   "智能", "算法推荐"]

/-- High-tier (×3) keywords of `calculate_ai_score` (`main.py` line 39). -/
def highTierKeywords : List String := ["人工智能", "大模型", "生成式", "AIGC"]

/-- Mid-tier (×2) keywords of `calculate_ai_score` (`main.py` line 41). -/
def midTierKeywords : List String := ["算法", "智能", "深度合成", "机器学习", "深度学习"]

/-- A raw input row as seen by `calculate_ai_score`: `some s` models a
Python `str` cell, `none` models any non-string cell (missing/NaN);
`url` stands for the remaining row payload. -/
structure RawRow where
  title : Option String
  full_text : Option String
  url : String
deriving DecidableEq, Repr

/-- One loop iteration of `calculate_ai_score` (`main.py` lines 36-44):
tier-weighted addition of the keyword's occurrence count. -/
def aiStep (full : List Char) (score : Nat) (kw : String) : Nat :=
  if 0 < countOcc (pyLower kw).toList full then
    if highTierKeywords.contains kw then score + countOcc (pyLower kw).toList full * 3
    else if midTierKeywords.contains kw then score + countOcc (pyLower kw).toList full * 2
    else score + countOcc (pyLower kw).toList full
  else score

/-- `calculate_ai_score` (`main.py` lines 25-45): returns `0` for rows
whose title or body is not a string; otherwise a weighted keyword
occurrence sum over the lower-cased `title + " " + text`. -/
def calculate_ai_score (row : RawRow) : Nat :=
  match row.title, row.full_text with
  | some title, some text =>
    AI_KEYWORDS.foldl (aiStep ((pyLower title) ++ " " ++ (pyLower text)).toList) 0
  | _, _ => 0

/-- The relevance filter of `unify_data` (`main.py` line 112):
keep rows with `ai_score > 4`. -/
def ai_filter (rows : List RawRow) : List RawRow :=
  rows.filter (fun r => decide (4 < calculate_ai_score r))

/-- The tier multiplier as stated by the spec (§4.3): 3 for the
high tier, 2 for the mid tier, 1 for the remainder. -/
def tierMultiplier (kw : String) : Nat :=
  if highTierKeywords.contains kw then 3
  else if midTierKeywords.contains kw then 2 else 1

/-- Modelled from the spec (§4.3): the relevance score as the spec
words it — the sum over every keyword of its occurrence count in the
lower-cased concatenation of title and body times its tier multiplier.
Used only to compare against `calculate_ai_score`. -/
def specRelevanceScore (title text : String) : Nat :=
  (AI_KEYWORDS.map (fun kw =>
    countOcc (pyLower kw).toList ((pyLower title) ++ " " ++ (pyLower text)).toList
      * tierMultiplier kw)).sum

/-- Leftmost `《([^》]+)》` capture of `re.search` in `get_core_title`
(`main.py` lines 90-94): at each position starting a `《`, the capture
is the maximal run of non-`》` characters, provided it is non-empty and
a closing `》` follows. -/
def findCore : List Char → Option (List Char)
  | [] => none
  | c :: t =>
    if c = '《' then
      let inner := t.takeWhile (fun d => d ≠ '》')
      if !inner.isEmpty && inner.length < t.length then some inner
      else findCore t
    else findCore t

/-- `get_core_title` (`main.py` lines 90-94): the first bracketed title
span if present, else the full title. -/
def get_core_title (title : String) : String :=
  match findCore title.toList with
  | some l => String.mk l
  | none => title

/-- A canonicalized record entering deduplication: the date has been
validated by `pd.to_datetime` and is encoded order-isomorphically as a
natural number; text fields are non-null strings. -/
structure CanonicalRecord where
  title : String
  url : String
  publication_date : Nat
  issuing_department : String
  full_text : String
  source : String
deriving DecidableEq, Repr

/-- The `core_title` dedup group key of a record (`main.py` line 96). -/
def coreKey (r : CanonicalRecord) : List Char := (get_core_title r.title).toList

/-- The `content_length` column (`main.py` line 97): character count of
`full_text`. -/
def content_length (r : CanonicalRecord) : Nat := r.full_text.length

/-- Code-point lexicographic strict order on character lists, the order
pandas uses to sort the `core_title` string column. -/
def chLt : List Char → List Char → Bool
  | [], [] => false
  | [], _ :: _ => true
  | _ :: _, [] => false
  | a :: as, b :: bs =>
    if a.toNat < b.toNat then true
    else if b.toNat < a.toNat then false
    else chLt as bs

/-- The composite sort relation of `main.py` line 100:
`core_title` ascending, then `publication_date` descending, then
`content_length` descending; ties are `le`-equivalent, so the stable
sort keeps their input order (pandas multi-column lexsort is stable). -/
def dedupLe (a b : CanonicalRecord) : Bool :=
  if chLt (coreKey a) (coreKey b) then true
  else if chLt (coreKey b) (coreKey a) then false
  else if b.publication_date < a.publication_date then true
  else if a.publication_date < b.publication_date then false
  else decide (content_length b ≤ content_length a)

/-- `drop_duplicates(subset=['core_title'], keep='first')` (`main.py`
line 104): keep each row whose key has not been seen earlier, in order. -/
def dedupAux : List (List Char) → List CanonicalRecord → List CanonicalRecord
  | _, [] => []
  | seen, r :: rest =>
    if coreKey r ∈ seen then dedupAux seen rest
    else r :: dedupAux (coreKey r :: seen) rest

/-- The deduplication transform of `unify_data` (`main.py` lines
100-104): stable sort by the composite key, then drop later duplicates
of each `core_title`. -/
def unify_dedup (l : List CanonicalRecord) : List CanonicalRecord :=
  dedupAux [] (List.mergeSort l dedupLe)

/-- `standardize_department` (`main.py` lines 120-134): ordered
substring-containment cascade onto the controlled vocabulary; unmatched
names pass through unchanged. -/
def standardize_department (name : String) : String :=
  if containsSub "工业和信息化部".toList name.toList then "中华人民共和国工业和信息化部"
  else if containsSub "网信办".toList name.toList
       || containsSub "国家互联网信息办公室".toList name.toList then "国家互联网信息办公室"
  else if containsSub "市场监督管理总局".toList name.toList then "国家市场监督管理总局"
  else if containsSub "全国信息安全标准化技术委员会".toList name.toList then "全国信息安全标准化技术委员会"
  else if name = "科技司" then "科技司"
  else if name = "办公厅" then "办公厅"
  else name

/-! ## Scoring-fold helper lemmas -/

theorem foldl_strictStep_of_no_match (tbl : List (String × ℚ)) (t : List Char) (acc : ℚ × ℚ)
    (h : ∀ p ∈ tbl, countOcc p.1.toList t = 0) :
    tbl.foldl (strictStep t) acc = acc := by
  induction tbl generalizing acc with
  | nil => rfl
  | cons a rest ih =>
    have ha := h a (List.mem_cons_self a rest)
    have hrest : ∀ p ∈ rest, countOcc p.1.toList t = 0 :=
      fun p hp => h p (List.mem_cons_of_mem _ hp)
    simp only [List.foldl_cons]
    rw [show strictStep t acc a = acc by simp only [strictStep]; rw [ha]; norm_num]
    exact ih acc hrest

theorem foldl_innovStep_of_no_match (tbl : List (String × ℚ)) (t : List Char) (acc : ℚ × ℚ)
    (h : ∀ p ∈ tbl, countOcc p.1.toList t = 0) :
    tbl.foldl (innovStep t) acc = acc := by
  induction tbl generalizing acc with
  | nil => rfl
  | cons a rest ih =>
    have ha := h a (List.mem_cons_self a rest)
    have hrest : ∀ p ∈ rest, countOcc p.1.toList t = 0 :=
      fun p hp => h p (List.mem_cons_of_mem _ hp)
    simp only [List.foldl_cons]
    rw [show innovStep t acc a = acc by simp only [innovStep]; rw [ha]; norm_num]
    exact ih acc hrest

theorem foldl_strictStep_single (tbl : List (String × ℚ)) (t : List Char) (acc : ℚ × ℚ)
    (kw : String) (v : ℚ)
    (h0 : ∀ p ∈ tbl, p.1 ≠ kw → countOcc p.1.toList t = 0)
    (h1 : countOcc kw.toList t = 1)
    (huniq : tbl.countP (fun p => decide (p.1 = kw)) = 1)
    (hval : ∀ p ∈ tbl, p.1 = kw → p.2 = v) :
    tbl.foldl (strictStep t) acc = (acc.1 + v * 2, acc.2 + 2) := by
  induction tbl generalizing acc with
  | nil => simp [List.countP_nil] at huniq
  | cons a rest ih =>
    by_cases hk : a.1 = kw
    · have hv : a.2 = v := hval a (List.mem_cons_self a rest) hk
      have hcnt : countOcc a.1.toList t = 1 := by rw [hk]; exact h1
      have hrest0 : rest.countP (fun p => decide (p.1 = kw)) = 0 := by
        have h' := huniq
        rw [List.countP_cons] at h'
        rw [show (decide (a.1 = kw)) = true by simp [hk]] at h'
        simp only [if_true] at h'
        omega
      have hrestzero : ∀ p ∈ rest, countOcc p.1.toList t = 0 := by
        intro p hp
        rcases eq_or_ne p.1 kw with he | hne
        · exfalso
          have := List.countP_eq_zero.mp hrest0 p hp
          simp [he] at this
        · exact h0 p (List.mem_cons_of_mem _ hp) hne
      simp only [List.foldl_cons]
      rw [foldl_strictStep_of_no_match rest t _ hrestzero]
      simp only [strictStep]
      rw [hcnt, hv]
      norm_num
    · have hcnt0 : countOcc a.1.toList t = 0 := h0 a (List.mem_cons_self a rest) hk
      simp only [List.foldl_cons]
      rw [show strictStep t acc a = acc by simp only [strictStep]; rw [hcnt0]; norm_num]
      refine ih acc (fun p hp => h0 p (List.mem_cons_of_mem _ hp)) ?_
        (fun p hp => hval p (List.mem_cons_of_mem _ hp))
      have h' := huniq
      rw [List.countP_cons] at h'
      rw [show (decide (a.1 = kw)) = false by simp [hk]] at h'
      simpa using h'

/-! ## Claim theorems: regulatory score (C3, C2) -/

/-- **C3.** For every input text, the computed regulatory score lies in
the closed interval [1, 10]; and for every text in which no keyword of
either table matches (so the accumulated total weight is 0), the score
is exactly 5. -/
theorem regulatory_score_bounds_and_neutral_default (text : String) :
    (1 ≤ calculate_regulatory_score text ∧ calculate_regulatory_score text ≤ 10) ∧
    ((∀ p ∈ strict_keywords, countOcc p.1.toList (pyLower text).toList = 0) →
      (∀ p ∈ innovation_keywords, countOcc p.1.toList (pyLower text).toList = 0) →
      calculate_regulatory_score text = 5) := by
  constructor
  · unfold calculate_regulatory_score
    split
    · norm_num
    · split
      · norm_num
      · exact ⟨le_max_left 1 _, max_le (by norm_num) (min_le_left _ _)⟩
  · intro hs hi
    have hacc : regAcc (pyLower text).toList = (0, 0) := by
      unfold regAcc
      rw [foldl_strictStep_of_no_match _ _ _ hs, foldl_innovStep_of_no_match _ _ _ hi]
    unfold calculate_regulatory_score
    rw [hacc]
    simp

/-- Witness for C3: a text matching no keyword scores exactly 5. -/
theorem regulatory_score_neutral_default_witness : calculate_regulatory_score "x" = 5 :=
  (regulatory_score_bounds_and_neutral_default "x").2 (by decide) (by decide)

/-- **C2 (amended).** A record whose combined text contains the keyword
"禁止" exactly once and no other keyword of either table scores exactly
9 (the table weight of "禁止" is 9, and a single undiluted keyword
yields its own weight). -/
theorem single_strict_keyword_scores_nine (text : String)
    (h1 : countOcc "禁止".toList (pyLower text).toList = 1)
    (h2 : ∀ p ∈ strict_keywords, p.1 ≠ "禁止" → countOcc p.1.toList (pyLower text).toList = 0)
    (h3 : ∀ p ∈ innovation_keywords, countOcc p.1.toList (pyLower text).toList = 0) :
    calculate_regulatory_score text = 9 := by
  have htext : text ≠ "" := by
    intro he
    rw [he] at h1
    exact absurd h1 (by decide)
  have hacc : regAcc (pyLower text).toList = (18, 2) := by
    unfold regAcc
    rw [foldl_strictStep_single strict_keywords _ _ "禁止" 9 h2 h1 (by decide) (by decide),
        foldl_innovStep_of_no_match _ _ _ h3]
    norm_num
  unfold calculate_regulatory_score
  rw [if_neg htext, hacc]
  norm_num

/-- Witness for the amended C2, at the concrete text "禁止". -/
theorem single_strict_keyword_scores_nine_witness :
    calculate_regulatory_score "禁止" = 9 :=
  single_strict_keyword_scores_nine "禁止" (by decide) (by decide) (by decide)

/-- **C2 counterexample.** The concrete text "禁止" satisfies the
claim's hypotheses (contains "禁止" once and no other keyword of either
table) yet does not score 10: the table weight of "禁止" is 9. -/
theorem single_strict_keyword_not_ten :
    countOcc "禁止".toList (pyLower "禁止").toList = 1 ∧
    (∀ p ∈ strict_keywords, p.1 ≠ "禁止" → countOcc p.1.toList (pyLower "禁止").toList = 0) ∧
    (∀ p ∈ innovation_keywords, countOcc p.1.toList (pyLower "禁止").toList = 0) ∧
    calculate_regulatory_score "禁止" ≠ 10 := by
  refine ⟨by decide, by decide, by decide, ?_⟩
  have hacc : regAcc (pyLower "禁止").toList = (18, 2) := by
    unfold regAcc
    rw [foldl_strictStep_single strict_keywords _ _ "禁止" 9 (by decide) (by decide)
          (by decide) (by decide),
        foldl_innovStep_of_no_match _ _ _ (by decide)]
    norm_num
  unfold calculate_regulatory_score
  rw [if_neg (by decide : ¬("禁止" = "")), hacc]
  norm_num

/-! ## Claim theorems: relevance score and filter (C9, C10) -/

theorem aiStep_eq_tier (full : List Char) (score : Nat) (kw : String) :
    aiStep full score kw = score + countOcc (pyLower kw).toList full * tierMultiplier kw := by
  unfold aiStep tierMultiplier
  by_cases h : 0 < countOcc (pyLower kw).toList full
  · rw [if_pos h]
    split_ifs <;> ring
  · rw [if_neg h]
    have hz : countOcc (pyLower kw).toList full = 0 := by omega
    rw [hz]
    split_ifs <;> simp

theorem foldl_aiStep_eq_sum (l : List String) (full : List Char) (acc : Nat) :
    l.foldl (aiStep full) acc
      = acc + (l.map (fun kw => countOcc (pyLower kw).toList full * tierMultiplier kw)).sum := by
  induction l generalizing acc with
  | nil => simp
  | cons a rest ih =>
    simp only [List.foldl_cons, List.map_cons, List.sum_cons]
    rw [aiStep_eq_tier, ih]
    omega

/-- **C9.** For every string-titled, string-bodied record, the computed
AI relevance score equals the spec's formulation: the sum over every
keyword of its occurrence count in the lower-cased concatenation of
title and body times its tier multiplier (3 high, 2 mid, 1 remainder);
and a row survives the relevance filter iff its score is strictly
greater than 4. -/
theorem ai_relevance_score_spec_and_filter (title text u : String)
    (rows : List RawRow) (r : RawRow) :
    calculate_ai_score { title := some title, full_text := some text, url := u }
        = specRelevanceScore title text ∧
    (r ∈ ai_filter rows ↔ r ∈ rows ∧ 4 < calculate_ai_score r) := by
  constructor
  · show AI_KEYWORDS.foldl (aiStep ((pyLower title) ++ " " ++ (pyLower text)).toList) 0 = _
    rw [foldl_aiStep_eq_sum]
    simp [specRelevanceScore]
  · simp [ai_filter, List.mem_filter]

/-- **C10.** A row whose title or body is not a string is scored 0 by
the (total, non-raising) relevance scorer, hence never survives the
`score > 4` relevance filter. -/
theorem nonstring_row_excluded (row : RawRow)
    (h : row.title = none ∨ row.full_text = none) :
    calculate_ai_score row = 0 ∧ ∀ rows : List RawRow, row ∉ ai_filter rows := by
  have h0 : calculate_ai_score row = 0 := by
    unfold calculate_ai_score
    rcases h with h | h
    · rw [h]
    · rw [h]
      cases row.title <;> rfl
  refine ⟨h0, ?_⟩
  intro rows hmem
  rw [ai_filter, List.mem_filter, h0] at hmem
  simp at hmem

/-- Witness for C10 at a concrete row with a missing (NaN) title. -/
theorem nonstring_row_excluded_witness :
    calculate_ai_score { title := none, full_text := some "算法", url := "u" } = 0 ∧
    { title := none, full_text := some "算法", url := "u" } ∉
      ai_filter [{ title := none, full_text := some "算法", url := "u" }] := by
  have h := nonstring_row_excluded { title := none, full_text := some "算法", url := "u" }
    (Or.inl rfl)
  exact ⟨h.1, h.2 _⟩

/-! ## Claim theorems: alert-count monotonicity (C7) -/

/-- **C7.** For every fixed input set and thresholds `t1 ≤ t2`, the
alert count at threshold `t2` is at most the count at `t1`. -/
theorem alert_count_antitone (now : String) (policies : List Policy) (t1 t2 : ℚ)
    (h : t1 ≤ t2) :
    (generate_risk_alerts now policies t2).length
      ≤ (generate_risk_alerts now policies t1).length := by
  unfold generate_risk_alerts keptAlerts
  rw [List.length_mergeSort, List.length_mergeSort, List.length_map, List.length_map,
      ← List.countP_eq_length_filter, ← List.countP_eq_length_filter]
  apply List.countP_mono_left
  intro p _ hp
  simp only [decide_eq_true_eq] at hp ⊢
  exact le_trans h hp

/-- Witness for C7 at concrete thresholds 8 ≤ 9. -/
theorem alert_count_antitone_witness :
    (generate_risk_alerts "n" [] 9).length ≤ (generate_risk_alerts "n" [] 8).length :=
  alert_count_antitone "n" [] 8 9 (by norm_num)

/-! ## Claim theorems: run-to-run determinism (C1) -/

/-- A concrete policy record used in counterexamples. -/
def samplePolicy : Policy :=
  { title := "管理规定", url := "http://example", full_text := "严禁违规行为",
    issuing_department := "部门", unified_department := "部门",
    publication_date := "2024-01-01" }

/-- **C1 counterexample.** Two pipeline runs over the same fixed input
whose wall-clock reads differ produce different analysis rows: the
`analysis_timestamp` field embeds `datetime.now()`, so the output is
not byte-identical across runs. -/
theorem analysis_differs_across_runs :
    analyze_policy "2024-01-01T00:00:00" samplePolicy
      ≠ analyze_policy "2024-01-02T00:00:00" samplePolicy := by
  intro h
  have h' := congrArg Analysis.analysis_timestamp h
  simp [analyze_policy] at h'

/-- **C1 (amended).** For a fixed input record set and keyword tables,
every output field except the wall-clock timestamp fields
(`analysis_timestamp` on analysis rows, `alert_timestamp` on alerts) is
identical across re-runs: a run with clock `now` produces exactly the
run with clock `now'` with the timestamp fields replaced. -/
theorem pipeline_deterministic_up_to_timestamp (now now' : String) (p : Policy)
    (policies : List Policy) (threshold : ℚ) :
    analyze_policy now p = { analyze_policy now' p with analysis_timestamp := now } ∧
    generate_risk_alerts now policies threshold
      = (generate_risk_alerts now' policies threshold).map
          (fun a => { a with alert_timestamp := now }) := by
  refine ⟨rfl, ?_⟩
  unfold generate_risk_alerts
  rw [@List.map_mergeSort _ _ alertLe alertLe (fun a => { a with alert_timestamp := now })
        (keptAlerts now' policies threshold) (fun a _ b _ => rfl)]
  congr 1
  unfold keptAlerts
  rw [show (fun q => decide (threshold ≤ (analyze_policy now' q).regulatory_score))
        = (fun q => decide (threshold ≤ (analyze_policy now q).regulatory_score)) from rfl,
      List.map_map]
  exact List.map_congr_left (fun q _ => rfl)

/-! ## Claim theorems: enforcement level (C8) -/

/-- The keyword-match sum of the `i`-th enforcement-level category
(declaration order) over the combined title+body text. -/
def levelScore (text title : String) (i : Nat) : Nat :=
  levelSum (enfCombined text title) ((enforcement_levels.getD i ("", [])).2)

set_option maxHeartbeats 4000000 in
/-- **C8.** `enforcement_level` is always exactly one of the four
defined categories; when all four keyword-match sums are zero the
result is the guidance-document category ("指导性文件"); otherwise the
result is the category with the highest match sum, ties broken by table
declaration order (first declared wins): the result beats every
earlier-declared category strictly and every later-declared one weakly. -/
theorem enforcement_level_totality_and_first_max (text title : String) :
    determine_enforcement_level text title ∈ ["法律法规", "行政规章", "行业标准", "指导性文件"] ∧
    ((levelScore text title 0 = 0 ∧ levelScore text title 1 = 0 ∧
      levelScore text title 2 = 0 ∧ levelScore text title 3 = 0) →
      determine_enforcement_level text title = "指导性文件") ∧
    (¬(levelScore text title 0 = 0 ∧ levelScore text title 1 = 0 ∧
       levelScore text title 2 = 0 ∧ levelScore text title 3 = 0) →
      (determine_enforcement_level text title = "法律法规" ∧
        levelScore text title 1 ≤ levelScore text title 0 ∧
        levelScore text title 2 ≤ levelScore text title 0 ∧
        levelScore text title 3 ≤ levelScore text title 0) ∨
      (determine_enforcement_level text title = "行政规章" ∧
        levelScore text title 0 < levelScore text title 1 ∧
        levelScore text title 2 ≤ levelScore text title 1 ∧
        levelScore text title 3 ≤ levelScore text title 1) ∨
      (determine_enforcement_level text title = "行业标准" ∧
        levelScore text title 0 < levelScore text title 2 ∧
        levelScore text title 1 < levelScore text title 2 ∧
        levelScore text title 3 ≤ levelScore text title 2) ∨
      (determine_enforcement_level text title = "指导性文件" ∧
        levelScore text title 0 < levelScore text title 3 ∧
        levelScore text title 1 < levelScore text title 3 ∧
        levelScore text title 2 < levelScore text title 3)) := by
  have e0 : levelSum (enfCombined text title) ["法律", "法规", "条例", "刑法", "民法", "行政法"]
      = levelScore text title 0 := rfl
  have e1 : levelSum (enfCombined text title) ["规定", "办法", "细则", "规章", "管理办法", "实施细则"]
      = levelScore text title 1 := rfl
  have e2 : levelSum (enfCombined text title) ["标准", "规范", "指南", "准则", "技术标准", "国家标准"]
      = levelScore text title 2 := rfl
  have e3 : levelSum (enfCombined text title) ["意见", "通知", "指导", "建议", "倡议", "指南"]
      = levelScore text title 3 := rfl
  refine ⟨?_, ?_, ?_⟩
  · unfold determine_enforcement_level
    simp only [enforcement_levels, List.filterMap_cons, List.filterMap_nil, e0, e1, e2, e3]
    generalize levelScore text title 0 = s0
    generalize levelScore text title 1 = s1
    generalize levelScore text title 2 = s2
    generalize levelScore text title 3 = s3
    rcases Nat.eq_zero_or_pos s0 with h0 | h0 <;>
      rcases Nat.eq_zero_or_pos s1 with h1 | h1 <;>
        rcases Nat.eq_zero_or_pos s2 with h2 | h2 <;>
          rcases Nat.eq_zero_or_pos s3 with h3 | h3 <;>
            simp only [h0, h1, h2, h3, Nat.lt_irrefl, if_false, if_pos, if_true, if_neg,
              Nat.pos_iff_ne_zero, List.foldl_cons, List.foldl_nil] <;>
            first
              | (split_ifs <;> simp_all)
              | simp_all
  · intro h
    obtain ⟨h0, h1, h2, h3⟩ := h
    unfold determine_enforcement_level
    simp only [enforcement_levels, List.filterMap_cons, List.filterMap_nil, e0, e1, e2, e3,
      h0, h1, h2, h3, Nat.lt_irrefl, if_false, List.filterMap_nil]
  · unfold determine_enforcement_level
    simp only [enforcement_levels, List.filterMap_cons, List.filterMap_nil, e0, e1, e2, e3]
    generalize levelScore text title 0 = s0
    generalize levelScore text title 1 = s1
    generalize levelScore text title 2 = s2
    generalize levelScore text title 3 = s3
    intro hne
    rcases Nat.eq_zero_or_pos s0 with h0 | h0 <;>
      rcases Nat.eq_zero_or_pos s1 with h1 | h1 <;>
        rcases Nat.eq_zero_or_pos s2 with h2 | h2 <;>
          rcases Nat.eq_zero_or_pos s3 with h3 | h3 <;>
            simp only [h0, h1, h2, h3, Nat.lt_irrefl, if_false, if_pos, if_true, if_neg,
              Nat.pos_iff_ne_zero, List.foldl_cons, List.foldl_nil] <;>
            first
              | exact absurd ⟨by omega, by omega, by omega, by omega⟩ hne
              | ((try split_ifs) <;>
                  first
                    | exact Or.inl ⟨by first | rfl | trivial, by first | trivial | omega,
                        by first | trivial | omega, by first | trivial | omega⟩
                    | exact Or.inr (Or.inl ⟨by first | rfl | trivial, by first | trivial | omega,
                        by first | trivial | omega, by first | trivial | omega⟩)
                    | exact Or.inr (Or.inr (Or.inl ⟨by first | rfl | trivial,
                        by first | trivial | omega, by first | trivial | omega,
                        by first | trivial | omega⟩))
                    | exact Or.inr (Or.inr (Or.inr ⟨by first | rfl | trivial,
                        by first | trivial | omega, by first | trivial | omega,
                        by first | trivial | omega⟩)))

/-- Witness for C8: a text whose only enforcement keyword is "规定"
is classified "行政规章" by the first-max rule. -/
theorem enforcement_level_witness :
    determine_enforcement_level "本规定施行" "" = "行政规章" := by
  have h := (enforcement_level_totality_and_first_max "本规定施行" "").2.2 (by decide)
  rcases h with ⟨-, h1, -, -⟩ | ⟨he, -⟩ | ⟨-, -, h1, -⟩ | ⟨-, -, h1, -⟩
  · exact absurd h1 (by decide)
  · exact he
  · exact absurd h1 (by decide)
  · exact absurd h1 (by decide)

/-! ## Deduplication helper lemmas (C4, C5) -/

theorem chLt_irrefl (a : List Char) : chLt a a = false := by
  induction a with
  | nil => rfl
  | cons c t ih => simp [chLt, ih]

theorem chLt_trans {a b c : List Char} (h1 : chLt a b = true) (h2 : chLt b c = true) :
    chLt a c = true := by
  induction a generalizing b c with
  | nil =>
    cases b with
    | nil => simp [chLt] at h1
    | cons y ys =>
      cases c with
      | nil => simp [chLt] at h2
      | cons z zs => rfl
  | cons x xs ih =>
    cases b with
    | nil => simp [chLt] at h1
    | cons y ys =>
      cases c with
      | nil => simp [chLt] at h2
      | cons z zs =>
        simp only [chLt] at h1 h2 ⊢
        split_ifs at h1 h2 ⊢ <;>
          first
            | rfl
            | omega
            | exact ih h1 h2
            | simp_all

theorem chLt_eq_of_not {a b : List Char} (h1 : chLt a b = false) (h2 : chLt b a = false) :
    a = b := by
  induction a generalizing b with
  | nil =>
    cases b with
    | nil => rfl
    | cons y ys => simp [chLt] at h1
  | cons x xs ih =>
    cases b with
    | nil => simp [chLt] at h2
    | cons y ys =>
      simp only [chLt] at h1 h2
      split_ifs at h1 h2 <;> try simp_all
      have hxy : x = y := by
        have hn : x.toNat = y.toNat := by omega
        have := congrArg Char.ofNat hn
        rwa [Char.ofNat_toNat, Char.ofNat_toNat] at this
      simp [hxy, ih h1 h2]

theorem dedupLe_total (a b : CanonicalRecord) : dedupLe a b || dedupLe b a := by
  unfold dedupLe
  split_ifs <;> simp_all [decide_eq_true_eq] <;> omega

theorem dedupLe_key_cases {a b : CanonicalRecord} (h : dedupLe a b = true) :
    chLt (coreKey a) (coreKey b) = true ∨
      (chLt (coreKey a) (coreKey b) = false ∧ chLt (coreKey b) (coreKey a) = false) := by
  unfold dedupLe at h
  split_ifs at h with h1 h2 <;> simp_all

theorem dedupLe_key_eq_iff (a b : CanonicalRecord) (hk : coreKey a = coreKey b) :
    dedupLe a b = true ↔
      (b.publication_date < a.publication_date ∨
        (a.publication_date = b.publication_date ∧ content_length b ≤ content_length a)) := by
  unfold dedupLe
  rw [hk, chLt_irrefl]
  split_ifs <;> simp_all [decide_eq_true_eq] <;> omega

theorem dedupLe_trans {a b c : CanonicalRecord}
    (h1 : dedupLe a b = true) (h2 : dedupLe b c = true) : dedupLe a c = true := by
  rcases dedupLe_key_cases h1 with k1 | ⟨k1, k1'⟩ <;>
    rcases dedupLe_key_cases h2 with k2 | ⟨k2, k2'⟩
  · unfold dedupLe
    rw [if_pos (chLt_trans k1 k2)]
  · have he : coreKey b = coreKey c := chLt_eq_of_not k2 k2'
    unfold dedupLe
    rw [← he, if_pos k1]
  · have he : coreKey a = coreKey b := chLt_eq_of_not k1 k1'
    unfold dedupLe
    rw [he, if_pos k2]
  · have he1 : coreKey a = coreKey b := chLt_eq_of_not k1 k1'
    have he2 : coreKey b = coreKey c := chLt_eq_of_not k2 k2'
    have hd1 := (dedupLe_key_eq_iff a b he1).mp h1
    have hd2 := (dedupLe_key_eq_iff b c he2).mp h2
    rw [dedupLe_key_eq_iff a c (he1.trans he2)]
    rcases hd1 with hd1 | ⟨hd1, hc1⟩ <;> rcases hd2 with hd2 | ⟨hd2, hc2⟩ <;>
      first | (left; omega) | (right; exact ⟨by omega, by omega⟩)

theorem dedupLe_antisymm_fields {a b : CanonicalRecord}
    (h1 : dedupLe a b = true) (h2 : dedupLe b a = true) :
    coreKey a = coreKey b ∧ a.publication_date = b.publication_date ∧
      content_length a = content_length b := by
  have hk : coreKey a = coreKey b := by
    rcases dedupLe_key_cases h1 with k1 | ⟨k1, k1'⟩
    · rcases dedupLe_key_cases h2 with k2 | ⟨k2, k2'⟩
      · have := chLt_trans k1 k2
        rw [chLt_irrefl] at this
        exact absurd this (by simp)
      · exact absurd k1 (by simp [k2'])
    · exact chLt_eq_of_not k1 k1'
  have hd1 := (dedupLe_key_eq_iff a b hk).mp h1
  have hd2 := (dedupLe_key_eq_iff b a hk.symm).mp h2
  refine ⟨hk, ?_, ?_⟩ <;> omega

theorem mem_of_mem_dedupAux {seen : List (List Char)} {l : List CanonicalRecord}
    {r : CanonicalRecord} (h : r ∈ dedupAux seen l) : r ∈ l := by
  induction l generalizing seen with
  | nil => simp [dedupAux] at h
  | cons a t ih =>
    simp only [dedupAux] at h
    split_ifs at h with hs
    · exact List.mem_cons_of_mem _ (ih h)
    · rcases List.mem_cons.mp h with rfl | h'
      · exact List.mem_cons_self _ _
      · exact List.mem_cons_of_mem _ (ih h')

theorem key_not_seen_of_mem_dedupAux {seen : List (List Char)} {l : List CanonicalRecord}
    {r : CanonicalRecord} (h : r ∈ dedupAux seen l) : coreKey r ∉ seen := by
  induction l generalizing seen with
  | nil => simp [dedupAux] at h
  | cons a t ih =>
    simp only [dedupAux] at h
    split_ifs at h with hs
    · exact ih h
    · rcases List.mem_cons.mp h with rfl | h'
      · exact hs
      · exact fun hr => (ih h') (List.mem_cons_of_mem _ hr)

theorem first_of_group_dedupAux {P : CanonicalRecord → CanonicalRecord → Prop}
    {seen : List (List Char)} {l : List CanonicalRecord} {r s : CanonicalRecord}
    (hp : l.Pairwise P) (hr : r ∈ dedupAux seen l) (hs : s ∈ l)
    (hk : coreKey s = coreKey r) : r = s ∨ P r s := by
  induction l generalizing seen with
  | nil => simp [dedupAux] at hr
  | cons a t ih =>
    simp only [dedupAux] at hr
    obtain ⟨hpa, hpt⟩ := List.pairwise_cons.mp hp
    split_ifs at hr with hseen
    · rcases List.mem_cons.mp hs with rfl | hs'
      · exact absurd (hk ▸ hseen) (key_not_seen_of_mem_dedupAux hr)
      · exact ih hpt hr hs'
    · rcases List.mem_cons.mp hr with rfl | hr'
      · rcases List.mem_cons.mp hs with rfl | hs'
        · exact Or.inl rfl
        · exact Or.inr (hpa s hs')
      · rcases List.mem_cons.mp hs with rfl | hs'
        · exact absurd (by rw [← hk]; exact List.mem_cons_self _ _)
            (key_not_seen_of_mem_dedupAux hr')
        · exact ih hpt hr' hs'

theorem countP_dedupAux_of_mem_seen {seen : List (List Char)} {l : List CanonicalRecord}
    {k : List Char} (hk : k ∈ seen) :
    (dedupAux seen l).countP (fun r => decide (coreKey r = k)) = 0 := by
  rw [List.countP_eq_zero]
  intro r hr
  simp only [decide_eq_true_eq]
  intro he
  exact (key_not_seen_of_mem_dedupAux hr) (he ▸ hk)

theorem countP_dedupAux_of_not_seen {seen : List (List Char)} {l : List CanonicalRecord}
    {k : List Char} (hk : k ∉ seen) (hex : ∃ r ∈ l, coreKey r = k) :
    (dedupAux seen l).countP (fun r => decide (coreKey r = k)) = 1 := by
  induction l generalizing seen with
  | nil =>
    rcases hex with ⟨r, hr, -⟩
    simp at hr
  | cons a t ih =>
    simp only [dedupAux]
    split_ifs with hseen
    · rcases hex with ⟨r, hr, hkr⟩
      rcases List.mem_cons.mp hr with rfl | hr'
      · exact absurd (hkr ▸ hseen) hk
      · exact ih hk ⟨r, hr', hkr⟩
    · by_cases hak : coreKey a = k
      · rw [List.countP_cons,
          countP_dedupAux_of_mem_seen (by rw [← hak]; exact List.mem_cons_self _ _)]
        simp [hak]
      · rcases hex with ⟨r, hr, hkr⟩
        rcases List.mem_cons.mp hr with rfl | hr'
        · exact absurd hkr hak
        · rw [List.countP_cons,
            ih (by
              intro hmem
              rcases List.mem_cons.mp hmem with he | hmem'
              · exact hak he.symm
              · exact hk hmem') ⟨r, hr', hkr⟩]
          simp [hak]

theorem mergeSort_pair {α : Type} (le : α → α → Bool) (a b : α) :
    List.mergeSort [a, b] le = if le a b then [a, b] else [b, a] := by
  rw [List.mergeSort]
  simp [List.splitInTwo, List.mergeSort, List.merge]

/-! ## Claim theorems: deduplication (C4, C5) -/

/-- The older, longer record of the spec's concrete dedup scenario
(core title "示例办法", date 2023-01-01, length 500). -/
def recOld : CanonicalRecord :=
  { title := "关于《示例办法》的通知", url := "u1", publication_date := 20230101,
    issuing_department := "部门", full_text := String.mk (List.replicate 500 'a'),
    source := "cac" }

/-- The newer, shorter record of the scenario
(core title "示例办法", date 2023-06-01, length 300). -/
def recNew : CanonicalRecord :=
  { title := "《示例办法》", url := "u2", publication_date := 20230601,
    issuing_department := "部门", full_text := String.mk (List.replicate 300 'b'),
    source := "miit" }

theorem sorted_dedupLe (l : List CanonicalRecord) :
    (List.mergeSort l dedupLe).Pairwise (fun a b => dedupLe a b = true) :=
  @List.sorted_mergeSort _ dedupLe (fun a b c h1 h2 => dedupLe_trans h1 h2)
    (fun a b => dedupLe_total a b) l

set_option maxRecDepth 20000 in
/-- **C4.** The Deduplication Engine keeps exactly one record per
group key present in the input, and the kept record's date is maximal
in its group (never earlier than another group member's); in the
concrete scenario of two records with core title "示例办法", dates
2023-01-01/length 500 and 2023-06-01/length 300, the one dated
2023-06-01 is kept. -/
theorem dedup_keeps_exactly_one_newest (l : List CanonicalRecord) (k : List Char) :
    ((∃ r ∈ l, coreKey r = k) →
      (unify_dedup l).countP (fun r => decide (coreKey r = k)) = 1) ∧
    (∀ r ∈ unify_dedup l, ∀ s ∈ l, coreKey s = coreKey r →
      s.publication_date ≤ r.publication_date) ∧
    unify_dedup [recOld, recNew] = [recNew] := by
  refine ⟨?_, ?_, ?_⟩
  · rintro ⟨r, hr, hk⟩
    unfold unify_dedup
    exact countP_dedupAux_of_not_seen (List.not_mem_nil k)
      ⟨r, List.mem_mergeSort.mpr hr, hk⟩
  · intro r hr s hs hk
    have hp := sorted_dedupLe l
    rcases first_of_group_dedupAux hp hr (List.mem_mergeSort.mpr hs) hk with rfl | hle
    · exact Nat.le_refl _
    · rcases (dedupLe_key_eq_iff r s hk.symm).mp hle with h | ⟨h, -⟩ <;> omega
  · show dedupAux [] (List.mergeSort [recOld, recNew] dedupLe) = [recNew]
    rw [mergeSort_pair]
    decide

/-- Witness for C4 at the singleton list containing `recNew`. -/
theorem dedup_keeps_exactly_one_newest_witness :
    (unify_dedup [recNew]).countP (fun r => decide (coreKey r = coreKey recNew)) = 1 :=
  (dedup_keeps_exactly_one_newest [recNew] (coreKey recNew)).1
    ⟨recNew, List.mem_cons_self _ _, rfl⟩

theorem eq_of_perm_of_pairwise {α : Type} {P : α → α → Prop} :
    ∀ {l1 l2 : List α}, l1.Perm l2 → l1.Pairwise P → l2.Pairwise P →
      (∀ a ∈ l1, ∀ b ∈ l1, P a b → P b a → a = b) → l1 = l2 := by
  intro l1
  induction l1 with
  | nil =>
    intro l2 hperm _ _ _
    exact hperm.nil_eq
  | cons a t ih =>
    intro l2 hperm hp1 hp2 hanti
    have ha2 : a ∈ l2 := hperm.mem_iff.mp (List.mem_cons_self _ _)
    cases l2 with
    | nil => simp at ha2
    | cons b t2 =>
      have hab : a = b := by
        rcases List.mem_cons.mp ha2 with h | h
        · exact h
        · have hb1 : b ∈ a :: t := hperm.mem_iff.mpr (List.mem_cons_self _ _)
          rcases List.mem_cons.mp hb1 with h' | h'
          · exact h'.symm
          · exact hanti a (List.mem_cons_self _ _) b (List.mem_cons_of_mem _ h')
              ((List.pairwise_cons.mp hp1).1 b h') ((List.pairwise_cons.mp hp2).1 a h)
      subst hab
      have ht : t.Perm t2 := List.Perm.cons_inv hperm
      rw [ih ht (List.pairwise_cons.mp hp1).2 (List.pairwise_cons.mp hp2).2
        (fun x hx y hy => hanti x (List.mem_cons_of_mem _ hx) y (List.mem_cons_of_mem _ hy))]

/-- **C5 (amended).** The deduplication transform is order-independent
on output for inputs in which no two distinct records of the same group
tie on both publication date and content length: for any permutation of
the rows, the same representatives are chosen.  (For exact ties the
representative is determined by input order, see the counterexample.) -/
theorem dedup_order_independent (l1 l2 : List CanonicalRecord) (hperm : l1.Perm l2)
    (hnt : ∀ a ∈ l1, ∀ b ∈ l1, coreKey a = coreKey b →
      a.publication_date = b.publication_date →
      content_length a = content_length b → a = b) :
    unify_dedup l1 = unify_dedup l2 := by
  unfold unify_dedup
  congr 1
  refine eq_of_perm_of_pairwise
    (((List.mergeSort_perm l1 dedupLe).trans hperm).trans
      (List.mergeSort_perm l2 dedupLe).symm)
    (sorted_dedupLe l1)
    (sorted_dedupLe l2)
    (fun a ha b hb h1 h2 => ?_)
  obtain ⟨hk, hd, hc⟩ := dedupLe_antisymm_fields h1 h2
  exact hnt a (List.mem_mergeSort.mp ha) b (List.mem_mergeSort.mp hb) hk hd hc

set_option maxRecDepth 20000 in
/-- Witness for the amended C5: swapping the two (non-tying) scenario
records does not change the dedup output. -/
theorem dedup_order_independent_witness :
    unify_dedup [recOld, recNew] = unify_dedup [recNew, recOld] :=
  dedup_order_independent [recOld, recNew] [recNew, recOld]
    (List.Perm.swap recNew recOld []) (by decide)

/-- First record of an exact-tie group (same core title, date and
length as `recTieB`, different url). -/
def recTieA : CanonicalRecord :=
  { title := "《合规指引》", url := "tie-a", publication_date := 20240101,
    issuing_department := "部门", full_text := "正文", source := "cac" }

/-- Second record of the exact-tie group. -/
def recTieB : CanonicalRecord :=
  { title := "《合规指引》", url := "tie-b", publication_date := 20240101,
    issuing_department := "部门", full_text := "正文", source := "miit" }

set_option maxRecDepth 20000 in
/-- **C5 counterexample.** For two records tying on group key,
publication date and content length, permuting the input rows changes
which record the Deduplication Engine keeps: the transform is not
order-independent on output for tie groups. -/
theorem dedup_not_order_independent :
    ([recTieA, recTieB] : List CanonicalRecord).Perm [recTieB, recTieA] ∧
    unify_dedup [recTieA, recTieB] ≠ unify_dedup [recTieB, recTieA] := by
  constructor
  · exact List.Perm.swap recTieB recTieA []
  · unfold unify_dedup
    rw [mergeSort_pair, mergeSort_pair]
    decide

/-! ## Alert-ordering helper lemmas (C6) -/

theorem alertLe_total (a b : Alert) : alertLe a b || alertLe b a := by
  simp only [alertLe, Bool.or_eq_true, decide_eq_true_eq]
  exact le_total _ _

theorem alertLe_trans {a b c : Alert} (h1 : alertLe a b = true) (h2 : alertLe b c = true) :
    alertLe a c = true := by
  simp only [alertLe, decide_eq_true_eq] at h1 h2 ⊢
  exact le_trans h2 h1

theorem mkAlert_department (now : String) (p : Policy) :
    (mkAlert now p).department = p.issuing_department := rfl

theorem mkAlert_regulatory_score (now : String) (p : Policy) :
    (mkAlert now p).regulatory_score = (analyze_policy now p).regulatory_score := rfl

theorem mkAlert_affected_domains (now : String) (p : Policy) :
    (mkAlert now p).affected_domains = (analyze_policy now p).identified_domains := rfl

theorem pairwise_filter_of_mutual {α : Type} {p : α → Bool} {R : α → α → Prop}
    (h : ∀ a b, p a = true → p b = true → R a b) (l : List α) :
    (l.filter p).Pairwise R := by
  induction l with
  | nil => simp
  | cons a t ih =>
    by_cases hp : p a
    · rw [List.filter_cons_of_pos hp]
      exact List.pairwise_cons.mpr ⟨fun b hb => h a b hp (List.of_mem_filter hb), ih⟩
    · rw [List.filter_cons_of_neg hp]
      exact ih

theorem filter_mergeSort_of_mutual {α : Type} (le : α → α → Bool)
    (htrans : ∀ a b c : α, le a b → le b c → le a c)
    (htotal : ∀ a b : α, le a b || le b a)
    (p : α → Bool) (hmut : ∀ a b, p a = true → p b = true → le a b = true)
    (l : List α) :
    (List.mergeSort l le).filter p = l.filter p := by
  have hsub : List.Sublist (l.filter p) (List.mergeSort l le) :=
    List.sublist_mergeSort htrans htotal (pairwise_filter_of_mutual hmut l)
      (List.filter_sublist l)
  have hsub2 : List.Sublist ((l.filter p).filter p) ((List.mergeSort l le).filter p) :=
    hsub.filter p
  have hid : (l.filter p).filter p = l.filter p := by
    rw [List.filter_filter]
    simp
  rw [hid] at hsub2
  have hlen : (l.filter p).length = ((List.mergeSort l le).filter p).length := by
    rw [← List.countP_eq_length_filter, ← List.countP_eq_length_filter]
    exact ((List.mergeSort_perm l le).countP_eq p).symm
  exact (hsub2.eq_of_length hlen).symm

/-- **C6 (amended).** For every annotated record set, threshold and
allow-lists: the alert built from a record appears in the filtered
alert output iff `regulatory_score ≥ threshold`, and (when the
department allow-list is non-empty) its `issuing_department` — the
field surfaced as the alert's `department` — is a member, and (when the
domain allow-list is non-empty) at least one of its
`identified_domains` is a member; the output is ordered descending by
`regulatory_score`, and records of equal score keep their relative
input order (the output agrees with the unsorted kept list on every
fixed score). -/
theorem alert_selection_and_order (now : String) (policies : List Policy) (threshold : ℚ)
    (depts doms : List String) :
    (∀ p ∈ policies,
      (mkAlert now p ∈ check_high_risk_policies now policies threshold depts doms ↔
        (threshold ≤ (analyze_policy now p).regulatory_score ∧
         (depts = [] ∨ p.issuing_department ∈ depts) ∧
         (doms = [] ∨ ∃ d ∈ (analyze_policy now p).identified_domains, d ∈ doms)))) ∧
    (check_high_risk_policies now policies threshold depts doms).Pairwise
      (fun a b => b.regulatory_score ≤ a.regulatory_score) ∧
    (∀ s : ℚ, (check_high_risk_policies now policies threshold depts doms).filter
        (fun a => decide (a.regulatory_score = s))
      = ((keptAlerts now policies threshold).filter (alertKeep depts doms)).filter
        (fun a => decide (a.regulatory_score = s))) := by
  refine ⟨?_, ?_, ?_⟩
  · intro p hp
    unfold check_high_risk_policies generate_risk_alerts
    rw [List.mem_filter, List.mem_mergeSort]
    constructor
    · rintro ⟨hmem, hkeep⟩
      unfold keptAlerts at hmem
      rw [List.mem_map] at hmem
      obtain ⟨q, hq, he⟩ := hmem
      rw [List.mem_filter] at hq
      simp only [alertKeep, mkAlert_department, mkAlert_affected_domains, Bool.and_eq_true,
        Bool.or_eq_true, List.isEmpty_iff, List.any_eq_true, List.contains,
        List.elem_eq_mem, decide_eq_true_eq] at hkeep
      refine ⟨?_, ?_, ?_⟩
      · have hsc := congrArg Alert.regulatory_score he
        rw [mkAlert_regulatory_score, mkAlert_regulatory_score] at hsc
        have hq2 := hq.2
        rw [decide_eq_true_eq] at hq2
        rwa [hsc] at hq2
      · rcases hkeep.1 with hempty | hcont
        · exact Or.inl hempty
        · exact Or.inr hcont
      · rcases hkeep.2 with hempty | ⟨d, hd, hdm⟩
        · exact Or.inl hempty
        · exact Or.inr ⟨d, hd, hdm⟩
    · rintro ⟨hsc, hdept, hdom⟩
      refine ⟨?_, ?_⟩
      · unfold keptAlerts
        rw [List.mem_map]
        exact ⟨p, List.mem_filter.mpr ⟨hp, by simpa using hsc⟩, rfl⟩
      · simp only [alertKeep, mkAlert_department, mkAlert_affected_domains, Bool.and_eq_true,
          Bool.or_eq_true, List.isEmpty_iff, List.any_eq_true, List.contains,
          List.elem_eq_mem, decide_eq_true_eq]
        constructor
        · rcases hdept with h | h
          · exact Or.inl h
          · exact Or.inr h
        · rcases hdom with h | ⟨d, hd, hdm⟩
          · exact Or.inl h
          · exact Or.inr ⟨d, hd, hdm⟩
  · apply List.Pairwise.filter
    have hs := @List.sorted_mergeSort _ alertLe (fun a b c h1 h2 => alertLe_trans h1 h2)
      (fun a b => alertLe_total a b) (keptAlerts now policies threshold)
    exact hs.imp (fun h => by simpa [alertLe, decide_eq_true_eq] using h)
  · intro s
    unfold check_high_risk_policies generate_risk_alerts
    rw [List.filter_filter, List.filter_filter]
    apply filter_mergeSort_of_mutual alertLe (fun a b c h1 h2 => alertLe_trans h1 h2)
      (fun a b => alertLe_total a b)
    intro a b ha hb
    simp only [Bool.and_eq_true, decide_eq_true_eq] at ha hb
    simp [alertLe, ha.1, hb.1]

/-- A policy whose raw issuing department ("工业和信息化部") differs
from its canonicalized unified department, and which scores 10. -/
def polDeptCex : Policy :=
  { title := "通告X", url := "u", full_text := "严禁任何违规行为",
    issuing_department := "工业和信息化部",
    unified_department := standardize_department "工业和信息化部",
    publication_date := "2024-01-01" }

/-- **C6 counterexample.** A record scoring above the threshold whose
`unified_department` is in the allow-list is nevertheless absent from
the alert output: the department filter reads the alert's `department`
field, which carries the raw `issuing_department`, not
`unified_department`. -/
theorem dept_allowlist_uses_raw_department :
    (8 : ℚ) ≤ (analyze_policy "n" polDeptCex).regulatory_score ∧
    polDeptCex.unified_department ∈ ["中华人民共和国工业和信息化部"] ∧
    check_high_risk_policies "n" [polDeptCex] 8 ["中华人民共和国工业和信息化部"] [] = [] := by
  have hacc : regAcc (pyLower "通告X 严禁任何违规行为").toList = (20, 2) := by
    unfold regAcc
    rw [foldl_strictStep_single strict_keywords _ _ "严禁" 10 (by decide) (by decide)
          (by decide) (by decide),
        foldl_innovStep_of_no_match _ _ _ (by decide)]
    norm_num
  have hsc : (analyze_policy "n" polDeptCex).regulatory_score = 10 := by
    show calculate_regulatory_score "通告X 严禁任何违规行为" = 10
    unfold calculate_regulatory_score
    rw [if_neg (by decide : ¬("通告X 严禁任何违规行为" = "")), hacc]
    norm_num
  refine ⟨by rw [hsc]; norm_num, by decide, ?_⟩
  have hkept : keptAlerts "n" [polDeptCex] 8 = [mkAlert "n" polDeptCex] := by
    unfold keptAlerts
    rw [List.filter_cons_of_pos (by simp only [hsc, decide_eq_true_eq]; norm_num),
      List.filter_nil]
    rfl
  show (List.mergeSort (keptAlerts "n" [polDeptCex] 8) alertLe).filter
      (alertKeep ["中华人民共和国工业和信息化部"] []) = []
  rw [hkept, List.mergeSort_singleton,
    List.filter_cons_of_neg (by decide), List.filter_nil]

/-- Witness for the amended C6, instantiated at a single qualifying
policy with empty allow-lists: the membership characterization holds. -/
theorem alert_selection_and_order_witness :
    mkAlert "n" polDeptCex ∈ check_high_risk_policies "n" [polDeptCex] 8 [] [] ↔
      (8 ≤ (analyze_policy "n" polDeptCex).regulatory_score ∧
       (([] : List String) = [] ∨ polDeptCex.issuing_department ∈ ([] : List String)) ∧
       (([] : List String) = [] ∨
         ∃ d ∈ (analyze_policy "n" polDeptCex).identified_domains,
           d ∈ ([] : List String))) :=
  (alert_selection_and_order "n" [polDeptCex] 8 [] []).1 polDeptCex (List.mem_cons_self _ _)
